import Mathlib

/-
Verification development for the HTTP pipelining test server
(http_server.cpp) and its specification.

The file contains a shallow embedding of the server code:

* class parser          -> ParserState, parserFeed          (boundary matcher)
* class header          -> HeaderState, headerFeed          (header extractor)
* tcp_connection parse  -> ConnParse, processByte/processBytes
  state and handle_read   (the per-byte loop of handle_read, including
                           queue_reply reply synthesis)
* reply queue, timers,  -> CState, Event, stepEv, processReplies
  error handling          (queue_reply push, process_replies flush,
                           Reply::timed_out, the read error branch)
* reply formatting      -> bodyText, replyContentLength, htmlPayload,
                           renderReply
* strtoul(value,0,10)   -> strtoul10 (ISO C semantics on a platform
                           with 64 bit unsigned long, base 10)

All definitions are executable; the theorems about the claims follow
after all definitions.
-/

/- ------------------------------------------------------------------ -/
/- Boundary matcher: class parser of http_server.cpp                  -/
/- ------------------------------------------------------------------ -/

/-- State of the boundary matcher: ptr is the offset of the string
iterator m_ptr into the target m_str, m_match is the match flag. -/
structure ParserState where
  ptr : Nat
  m_match : Bool
deriving DecidableEq

/-- parser::reset, which sets m_match = false and m_ptr = m_str.begin(). -/
def parserReset : ParserState := ⟨0, false⟩

/-- parser::feed. On a mismatching byte it resets unconditionally; on a
matching byte it advances the cursor and sets m_match exactly when the
cursor reaches the end of the target. When the cursor is already at the
end (only reachable when feed is called again after a match with no
intervening reset, which handle_read never does, since it resets the
parser in the same loop iteration that observes the match) the C++
dereference of the end iterator is undefined; we model that dead branch
as a reset. -/
def parserFeed (S : List Char) (st : ParserState) (c : Char) : ParserState :=
  if h : st.ptr < S.length then
    if c ≠ S.get ⟨st.ptr, h⟩ then parserReset
    else ⟨st.ptr + 1, decide (st.ptr + 1 = S.length)⟩
  else parserReset

/-- Target sequence of the tcp_connection member m_eom("\r\n\r\n"). -/
def eomChars : List Char := ['\r', '\n', '\r', '\n']

/-- Feed a whole byte stream to a freshly constructed parser. -/
def parserRun (S : List Char) (stream : List Char) : ParserState :=
  stream.foldl (parserFeed S) parserReset

/-- Whether the matcher reports a match directly after consuming byte i
of the stream (bytes are numbered from 0). -/
def parserReports (S stream : List Char) (i : Nat) : Bool :=
  (parserRun S (stream.take (i + 1))).m_match

/-- Whether an occurrence of S ends at position i of the stream, that
is, whether S is a suffix of the first i+1 bytes. -/
def occEndsAt (S stream : List Char) (i : Nat) : Bool :=
  S.isSuffixOf (stream.take (i + 1))

/-- Counterexample stream for claim C2: an occurrence of "\r\n\r\n"
ends at byte 4, but the matcher misses it, because at byte 1 it resets
without re-examining that byte. -/
def c2Stream : List Char := ['\r', '\r', '\n', '\r', '\n']

/- ------------------------------------------------------------------ -/
/- Header extractor: class header of http_server.cpp                  -/
/- ------------------------------------------------------------------ -/

/-- The state_type enumeration of class header. -/
inductive HState where
  | s_begin
  | s_key
  | s_colon
  | s_value
  | s_carriage_return
  | s_matched
deriving DecidableEq

/-- Parse state of one header line: accumulated key and value plus the
state machine state and the error flag. -/
structure HeaderState where
  m_key : List Char
  m_value : List Char
  m_state : HState
  m_error : Bool
deriving DecidableEq

/-- header::reset. -/
def headerReset : HeaderState := ⟨[], [], .s_begin, false⟩

/-- The switch statement of header::feed. The Bool result records
whether the early return in the s_carriage_return case was taken (it
skips the trailing newline check of feed). -/
def headerSwitch (h : HeaderState) (c : Char) : HeaderState × Bool :=
  match h.m_state with
  | .s_key =>
      if c = ':' then ({ h with m_state := .s_colon }, false)
      else ({ h with m_key := h.m_key ++ [c], m_state := .s_key }, false)
  | .s_begin => ({ h with m_key := h.m_key ++ [c], m_state := .s_key }, false)
  | .s_colon =>
      if c = ' ' then ({ h with m_state := .s_value }, false)
      else ({ h with m_error := true }, false)
  | .s_value =>
      if c = '\r' then ({ h with m_state := .s_carriage_return }, false)
      else ({ h with m_value := h.m_value ++ [c] }, false)
  | .s_carriage_return =>
      if c = '\n' then
        if h.m_error = false then ({ h with m_state := .s_matched }, true)
        else (headerReset, false)
      else ({ h with m_error := true }, false)
  | .s_matched => (h, false)

/-- header::feed: reset first when the previous byte completed a line,
then run the switch, then (unless the early return was taken) reset on
any newline. -/
def headerFeed (h0 : HeaderState) (c : Char) : HeaderState :=
  let h := if h0.m_state = .s_matched then headerReset else h0
  let hr := headerSwitch h c
  if hr.2 then hr.1
  else if c = '\n' then headerReset else hr.1

/- ------------------------------------------------------------------ -/
/- strtoul(value.data(), NULL, 10) on 64 bit unsigned long            -/
/- ------------------------------------------------------------------ -/

/-- Characters accepted by isspace in the C locale. -/
def isSpaceChar (c : Char) : Bool :=
  c = ' ' || c = '\t' || c = '\n' || c = Char.ofNat 11 || c = Char.ofNat 12 || c = '\r'

/-- Value of the longest digit prefix, accumulated like strtoul does. -/
def digitsVal : List Char → Nat → Nat
  | [], acc => acc
  | c :: rest, acc =>
      if c.isDigit then digitsVal rest (acc * 10 + (c.toNat - 48)) else acc

/-- ULONG_MAX on the 64 bit platform the server is built for. -/
def ulongMax : Nat := 2 ^ 64 - 1

/-- Model of strtoul(s, NULL, 10): skip leading white space, accept an
optional sign, convert the longest digit prefix; the result is clamped
to ULONG_MAX on overflow, and a minus sign negates the value in the
unsigned type. When no digits are present the result is 0. -/
def strtoul10 (v : List Char) : Nat :=
  match v.dropWhile isSpaceChar with
  | [] => 0
  | c :: rest =>
      if c = '-' then
        let n := digitsVal rest 0
        if n > ulongMax then ulongMax else (2 ^ 64 - n % 2 ^ 64) % 2 ^ 64
      else if c = '+' then
        let n := digitsVal rest 0
        if n > ulongMax then ulongMax else n
      else
        let n := digitsVal (c :: rest) 0
        if n > ulongMax then ulongMax else n

/-- Whether a byte string is a plain decimal numeral for a non-negative
integer (used to state claim C6). -/
def isNatNumeral (v : List Char) : Bool :=
  !v.isEmpty && v.all Char.isDigit

/- ------------------------------------------------------------------ -/
/- Per byte parsing loop of tcp_connection::handle_read               -/
/- ------------------------------------------------------------------ -/

/-- Parse related state of a tcp_connection: the two parsers and the
m_sleep, m_request and m_reply members. -/
structure ConnParse where
  m_eom : ParserState
  m_header : HeaderState
  m_sleep : Nat
  m_request : Nat
  m_reply : Nat
deriving DecidableEq

/-- State of a freshly accepted connection. -/
def connParseInit : ConnParse := ⟨parserReset, headerReset, 0, 0, 0⟩

/-- The key compared against in handle_read. -/
def xSleepKey : List Char := ['X', '-', 'S', 'l', 'e', 'e', 'p']

/-- The key compared against in handle_read. -/
def xRequestKey : List Char := ['X', '-', 'R', 'e', 'q', 'u', 'e', 's', 't']

/-- Record of one synthesized reply: the X-Reply sequence number
(the pre-incremented m_reply), the echoed X-Request value, and the
m_sleep delay the reply was created with. -/
structure ReplyRec where
  seq : Nat
  request : Nat
  sleep : Nat
deriving DecidableEq

/-- One iteration of the for loop of handle_read: feed the byte to both
parsers; if the boundary matcher fired, reset both parsers and run
queue_reply (which pre-increments m_reply, formats the reply from the
current m_request, zeroes m_request, and pushes the reply with the
current m_sleep as its delay), then zero m_sleep; otherwise, if the
header extractor completed a line, store the strtoul of its value in
m_sleep or m_request when the key is X-Sleep or X-Request. -/
def processByte (s : ConnParse) (c : Char) : ConnParse × Option ReplyRec :=
  let eom := parserFeed eomChars s.m_eom c
  let hdr := headerFeed s.m_header c
  if eom.m_match = true then
    (⟨parserReset, headerReset, 0, 0, s.m_reply + 1⟩,
      some ⟨s.m_reply + 1, s.m_request, s.m_sleep⟩)
  else if hdr.m_state = .s_matched then
    if hdr.m_key = xSleepKey then
      (⟨eom, hdr, strtoul10 hdr.m_value, s.m_request, s.m_reply⟩, none)
    else if hdr.m_key = xRequestKey then
      (⟨eom, hdr, s.m_sleep, strtoul10 hdr.m_value, s.m_reply⟩, none)
    else (⟨eom, hdr, s.m_sleep, s.m_request, s.m_reply⟩, none)
  else (⟨eom, hdr, s.m_sleep, s.m_request, s.m_reply⟩, none)

/-- The whole for loop of handle_read over a received buffer, collecting
the replies synthesized by queue_reply in order. -/
def processBytes : ConnParse → List Char → ConnParse × List ReplyRec
  | s, [] => (s, [])
  | s, c :: cs =>
      let pr := processByte s c
      let rest := processBytes pr.1 cs
      (rest.1, pr.2.toList ++ rest.2)

/-- Auxiliary runner used in proofs: feed bytes while neither parser
fires, returning none as soon as the boundary matcher or the header
extractor reports a completed match. -/
def inertRun : ParserState → HeaderState → List Char → Option (ParserState × HeaderState)
  | e, h, [] => some (e, h)
  | e, h, c :: cs =>
      let e2 := parserFeed eomChars e c
      let h2 := headerFeed h c
      if e2.m_match = true then none
      else if h2.m_state = .s_matched then none
      else inertRun e2 h2 cs

/-- Auxiliary runner used in proofs: feed bytes to the header extractor
alone, returning none as soon as it reports a completed line. -/
def headerRunNoMatch : HeaderState → List Char → Option HeaderState
  | h, [] => some h
  | h, c :: cs =>
      let h2 := headerFeed h c
      if h2.m_state = .s_matched then none else headerRunNoMatch h2 cs

/-- A well formed header line KEY: VALUE followed by CRLF. -/
def mkHeaderLine (k v : List Char) : List Char :=
  k ++ [':', ' '] ++ v ++ ['\r', '\n']

/-- A minimal request carrying one X-Request header. -/
def mkXRequest (v : List Char) : List Char :=
  mkHeaderLine xRequestKey v ++ ['\r', '\n']

/-- A minimal request carrying one X-Sleep header. -/
def mkXSleep (v : List Char) : List Char :=
  mkHeaderLine xSleepKey v ++ ['\r', '\n']

/-- A header line whose colon is not followed by a space: the key, the
colon, then the rest of the line (whose first character is not a
space), then CRLF. -/
def badLine (kb rb : List Char) : List Char :=
  kb ++ [':'] ++ rb ++ ['\r', '\n']

/-- Concatenation of one minimal X-Request request per listed value. -/
def concatRequests : List (List Char) → List Char
  | [] => []
  | v :: vs => mkXRequest v ++ concatRequests vs

/-- The replies the server is expected to synthesize for
concatRequests: the k-th reply carries X-Reply = cnt + k and echoes the
strtoul value of the k-th X-Request header, with no delay. -/
def expectedReplies : Nat → List (List Char) → List ReplyRec
  | _, [] => []
  | cnt, v :: vs => ⟨cnt + 1, strtoul10 v, 0⟩ :: expectedReplies (cnt + 1) vs

/- ------------------------------------------------------------------ -/
/- Reply queue, delay timers and the read error branch                -/
/- ------------------------------------------------------------------ -/

/-- One element of m_reply_queue: idx is a ghost creation index (the
position of the reply in creation order on its connection; it stands
for the rendered bytes, which are fixed at creation), and sleep is the
m_sleep member of class Reply (nonzero exactly while the reply is
sleeping). -/
structure QReply where
  idx : Nat
  sleep : Nat
deriving DecidableEq

/-- Queue related state of a tcp_connection: the m_closed flag and
m_reply_queue, plus two ghost fields: written lists the creation
indices of the replies handed to async_write, in wire order, and
nextIdx counts the replies created so far. -/
structure CState where
  m_closed : Bool
  m_reply_queue : List QReply
  written : List Nat
  nextIdx : Nat
deriving DecidableEq

/-- State of a freshly accepted connection. -/
def connInit : CState := ⟨false, [], [], 0⟩

/-- The while loop of process_replies: pop and write front elements
until the queue is empty or the front element is sleeping. Returns the
remaining queue and the creation indices written, in order. -/
def flushLoop : List QReply → List QReply × List Nat
  | [] => ([], [])
  | r :: rest =>
      if r.sleep ≠ 0 then (r :: rest, [])
      else
        let p := flushLoop rest
        (p.1, r.idx :: p.2)

/-- tcp_connection::process_replies: return immediately when the
connection is closed or the queue is empty, otherwise run the flush
loop. -/
def processReplies (s : CState) : CState :=
  if s.m_closed = true then s
  else if s.m_reply_queue.isEmpty then s
  else
    let p := flushLoop s.m_reply_queue
    { s with m_reply_queue := p.1, written := s.written ++ p.2 }

/-- Reply::timed_out with error code 0 clears m_sleep of the reply the
timer belongs to; replies are identified by their creation index. -/
def wakeIdx (i : Nat) (r : QReply) : QReply :=
  if r.idx = i then { r with sleep := 0 } else r

/-- Events that drive the queue state of one connection. -/
inductive Event where
  | request (sleep : Nat)
  | timerFire (idx : Nat) (err : Nat)
  | readError (aborted : Bool)

/-- One event step.

request sleep: queue_reply reached from a successful read: push a new
reply carrying the current m_sleep as its delay, then process_replies.
After the fatal error branch runs, handle_read is never re-armed, so
no request event can occur on a closed connection; the guard encodes
that control flow fact.

timerFire idx err: Reply::timed_out: only when the error code is 0 it
clears m_sleep of its reply and calls process_replies.

readError aborted: the else branch of handle_read: unless the error is
operation_aborted, clear m_reply_queue, close the socket and set
m_closed. -/
def stepEv (s : CState) : Event → CState
  | .request sl =>
      if s.m_closed = true then s
      else
        processReplies
          { s with
            m_reply_queue := s.m_reply_queue ++ [⟨s.nextIdx, sl⟩],
            nextIdx := s.nextIdx + 1 }
  | .timerFire i err =>
      if err = 0 then
        processReplies { s with m_reply_queue := s.m_reply_queue.map (wakeIdx i) }
      else s
  | .readError aborted =>
      if aborted then s
      else { s with m_reply_queue := [], m_closed := true }

/-- Run a connection from a state through a list of events. -/
def runFrom (s : CState) : List Event → CState
  | [] => s
  | e :: tr => runFrom (stepEv s e) tr

/-- Run a connection from accept through a list of events. -/
def runTrace (tr : List Event) : CState := runFrom connInit tr

/- ------------------------------------------------------------------ -/
/- Reply formatting (queue_reply and the reply format string)         -/
/- ------------------------------------------------------------------ -/

/-- The body snprintf of queue_reply:
  "Reply %d on connection %d for request #%lu". -/
def bodyText (reply inst request : Nat) : String :=
  "Reply " ++ toString reply ++ " on connection " ++ toString inst
    ++ " for request #" ++ toString request

/-- The Content-Length value queue_reply passes to snprintf:
strlen(body) + 27. -/
def replyContentLength (reply inst request : Nat) : Nat :=
  (bodyText reply inst request).length + 27

/-- The response bytes following the blank line, per the reply format
string: "<html><body>%s</body></html>\n" with the body substituted. -/
def htmlPayload (reply inst request : Nat) : String :=
  "<html><body>" ++ bodyText reply inst request ++ "</body></html>\n"

/-- The full response rendered by queue_reply from the reply format
string. -/
def renderReply (reply inst request : Nat) : String :=
  "HTTP/1.1 200 OK\r\n"
    ++ "Keep-Alive: timeout=10 max=400\r\n"
    ++ "Content-Length: " ++ toString (replyContentLength reply inst request) ++ "\r\n"
    ++ "Content-Type: text/html\r\n"
    ++ "X-Connection: " ++ toString inst ++ "\r\n"
    ++ "X-Request: " ++ toString request ++ "\r\n"
    ++ "X-Reply: " ++ toString reply ++ "\r\n"
    ++ "\r\n"
    ++ htmlPayload reply inst request

/- ------------------------------------------------------------------ -/
/- Listening endpoint                                                 -/
/- ------------------------------------------------------------------ -/

/-- The TCP port the server listens on. The tcp_server constructor
hard codes tcp::endpoint(tcp::v4(), 9001) and main is declared with no
parameters, so the process command line (modelled by the args
parameter) is ignored entirely. -/
def listenPort (_args : List String) : Nat := 9001

/- ------------------------------------------------------------------ -/
/- Theorems                                                           -/
/- ------------------------------------------------------------------ -/

lemma suffix_append_singleton {α : Type} {l p : List α}
    (h : l <:+ p) (c : α) : l ++ [c] <:+ p ++ [c] := by
  obtain ⟨t, ht⟩ := h
  exact ⟨t, by rw [← ht, List.append_assoc]⟩

lemma parserRun_append (S p : List Char) (c : Char) :
    parserRun S (p ++ [c]) = parserFeed S (parserRun S p) c := by
  simp [parserRun, List.foldl_append]

/-- Soundness invariant of the boundary matcher: the cursor never
exceeds the target length, the first ptr bytes of the target are a
suffix of the consumed stream, and the match flag forces the cursor to
the end of the target. -/
lemma parserRun_inv (S p : List Char) :
    (parserRun S p).ptr ≤ S.length ∧
      S.take (parserRun S p).ptr <:+ p ∧
      ((parserRun S p).m_match = true → (parserRun S p).ptr = S.length) := by
  induction p using List.reverseRecOn with
  | nil => simp [parserRun, parserReset]
  | append_singleton p c ih =>
      obtain ⟨h1, h2, h3⟩ := ih
      rw [parserRun_append]
      unfold parserFeed
      split
      · rename_i hlt
        split
        · simp [parserReset]
        · rename_i hc
          push_neg at hc
          refine ⟨by simp; omega, ?_, by simp⟩
          have ht : S.take ((parserRun S p).ptr + 1)
              = S.take (parserRun S p).ptr ++ [S.get ⟨(parserRun S p).ptr, hlt⟩] := by
            rw [← List.take_concat_get S _ hlt, List.concat_eq_append]
            simp
          show S.take ((parserRun S p).ptr + 1) <:+ p ++ [c]
          rw [ht, hc]
          exact suffix_append_singleton h2 _
      · simp [parserReset]

/-- C2 counterexample: with the target "\r\n\r\n", the stream
"\r\r\n\r\n" has an occurrence of the target ending at byte 4, yet the
matcher reports false there, and after the mismatch at byte 1 the
matcher is fully reset rather than re-evaluating that byte as the
start of a new occurrence. This refutes the if-and-only-if and the
re-evaluation part of the claim. -/
theorem C2_boundary_matcher_cex :
    occEndsAt eomChars c2Stream 4 = true ∧
      parserReports eomChars c2Stream 4 = false ∧
      parserRun eomChars (c2Stream.take 2) = parserReset := by
  decide

/-- C2 amended: the matcher is sound (it reports true after byte i only
if an occurrence of S ends at position i), but on a mismatching byte it
resets the cursor to 0 without re-evaluating that byte, so occurrences
overlapping an abandoned partial match can be missed. -/
theorem C2_boundary_matcher_sound :
    (∀ (S stream : List Char) (i : Nat),
        parserReports S stream i = true → occEndsAt S stream i = true) ∧
      (∀ (S : List Char) (st : ParserState) (c : Char) (h : st.ptr < S.length),
        c ≠ S.get ⟨st.ptr, h⟩ → parserFeed S st c = parserReset) := by
  constructor
  · intro S stream i hrep
    obtain ⟨h1, h2, h3⟩ := parserRun_inv S (stream.take (i + 1))
    have hp := h3 hrep
    rw [hp, List.take_length] at h2
    simpa [occEndsAt, List.isSuffixOf_iff_suffix] using h2
  · intro S st c h hc
    rw [List.get_eq_getElem] at hc
    simp [parserFeed, h, hc]

/-- C2 witness: the amended theorem applied at the stream that is
exactly the target, where the matcher fires at byte 3, and at a
concrete mismatching byte. -/
theorem C2_boundary_matcher_sound_witness :
    occEndsAt eomChars eomChars 3 = true ∧
      parserFeed eomChars ⟨1, false⟩ 'x' = parserReset :=
  ⟨C2_boundary_matcher_sound.1 eomChars eomChars 3 (by decide),
    C2_boundary_matcher_sound.2 eomChars ⟨1, false⟩ 'x' (by decide) (by decide)⟩

/-- C9 counterexample: the port is not configurable from the command
line; a concrete port flag leaves the port at its hard coded value
9001, the same as an empty command line. -/
theorem C9_fixed_port_cex :
    listenPort ["--port", "12345"] = 9001 ∧ listenPort [] = 9001 :=
  ⟨rfl, rfl⟩

/-- C9 amended: the server always listens on TCP port 9001; no command
line flag exists (main takes no parameters), so every command line
yields the same port. -/
theorem C9_fixed_port (args : List String) : listenPort args = 9001 := rfl

/-- The flush loop writes an initial segment of the queue: the indices
it writes followed by the indices it keeps are the indices it was
given, in order. -/
lemma flushLoop_split (q : List QReply) :
    (flushLoop q).2 ++ (flushLoop q).1.map QReply.idx = q.map QReply.idx := by
  induction q with
  | nil => simp [flushLoop]
  | cons r rest ih =>
      by_cases h : r.sleep = 0
      · simp [flushLoop, h, ih]
      · simp [flushLoop, h]

lemma processReplies_closed (s : CState) (h : s.m_closed = true) :
    processReplies s = s := by
  simp [processReplies, h]

/-- process_replies changes neither the closed flag nor the creation
counter, and it preserves the concatenation of the written indices with
the queued indices. -/
lemma processReplies_concat (s : CState) :
    (processReplies s).written ++ (processReplies s).m_reply_queue.map QReply.idx
        = s.written ++ s.m_reply_queue.map QReply.idx ∧
      (processReplies s).m_closed = s.m_closed ∧
      (processReplies s).nextIdx = s.nextIdx := by
  unfold processReplies
  split
  · exact ⟨rfl, rfl, rfl⟩
  · split
    · exact ⟨rfl, rfl, rfl⟩
    · refine ⟨?_, rfl, rfl⟩
      simp [List.append_assoc, flushLoop_split]

lemma wakeIdx_idx (i : Nat) (r : QReply) : (wakeIdx i r).idx = r.idx := by
  unfold wakeIdx
  split <;> rfl

/-- Invariant of the queue state machine: while the connection is open,
the written indices followed by the queued indices are exactly the
creation indices 0, 1, ..., nextIdx - 1 in order; once it is closed the
queue is empty and the written indices are an initial segment of the
creation order. -/
def InvC (s : CState) : Prop :=
  (s.m_closed = false →
      s.written ++ s.m_reply_queue.map QReply.idx = List.range s.nextIdx) ∧
    (s.m_closed = true →
      s.m_reply_queue = [] ∧ s.written = List.range s.written.length)

lemma prefix_range {l : List Nat} {n : Nat} (h : l <+: List.range n) :
    l = List.range l.length := by
  have hle : l.length ≤ n := by simpa using h.length_le
  have ht := List.prefix_iff_eq_take.mp h
  rwa [List.take_range, Nat.min_eq_left hle] at ht

lemma InvC_written {s : CState} (h : InvC s) :
    s.written = List.range s.written.length := by
  rcases hb : s.m_closed with _ | _
  · exact prefix_range ⟨s.m_reply_queue.map QReply.idx, h.1 hb⟩
  · exact (h.2 hb).2

/-- On a closed connection with an empty queue every event is inert. -/
lemma stepEv_closed_empty {s : CState} (h1 : s.m_closed = true)
    (h2 : s.m_reply_queue = []) (e : Event) : stepEv s e = s := by
  obtain ⟨a, q, w, n⟩ := s
  simp only at h1 h2
  subst h1
  subst h2
  cases e with
  | request sl => simp [stepEv]
  | timerFire i err =>
      rcases err with _ | m
      · simp [stepEv, processReplies]
      · simp [stepEv]
  | readError ab => cases ab <;> simp [stepEv]

lemma runFrom_closed_empty {s : CState} (h1 : s.m_closed = true)
    (h2 : s.m_reply_queue = []) (tr : List Event) : runFrom s tr = s := by
  induction tr with
  | nil => rfl
  | cons e tr ih =>
      show runFrom (stepEv s e) tr = s
      rw [stepEv_closed_empty h1 h2 e, ih]

lemma stepEv_inv {s : CState} (h : InvC s) (e : Event) : InvC (stepEv s e) := by
  obtain ⟨ho, hc⟩ := h
  cases e with
  | request sl =>
      rcases hb : s.m_closed with _ | _
      · have hstep : stepEv s (.request sl)
            = processReplies
                { s with
                  m_reply_queue := s.m_reply_queue ++ [⟨s.nextIdx, sl⟩],
                  nextIdx := s.nextIdx + 1 } := by
          simp [stepEv, hb]
        rw [hstep]
        set s1 : CState :=
          { s with
            m_reply_queue := s.m_reply_queue ++ [⟨s.nextIdx, sl⟩],
            nextIdx := s.nextIdx + 1 } with hs1
        obtain ⟨hq, hcl, hn⟩ := processReplies_concat s1
        have hcl1 : (processReplies s1).m_closed = false := by
          rw [hcl, hs1, hb]
        constructor
        · intro _
          rw [hq, hn, hs1]
          simp only [List.map_append, List.map_cons, List.map_nil]
          rw [← List.append_assoc, ho hb]
          simp [List.range_succ]
        · intro ht
          rw [hcl1] at ht
          cases ht
      · have hstep : stepEv s (.request sl) = s := by simp [stepEv, hb]
        rw [hstep]
        exact ⟨ho, hc⟩
  | timerFire i err =>
      rcases err with _ | m
      · rcases hb : s.m_closed with _ | _
        · have hstep : stepEv s (.timerFire i 0)
              = processReplies { s with m_reply_queue := s.m_reply_queue.map (wakeIdx i) } := by
            simp [stepEv]
          rw [hstep]
          set s1 : CState :=
            { s with m_reply_queue := s.m_reply_queue.map (wakeIdx i) } with hs1
          obtain ⟨hq, hcl, hn⟩ := processReplies_concat s1
          have hcl1 : (processReplies s1).m_closed = false := by
            rw [hcl, hs1, hb]
          have hidx : s1.m_reply_queue.map QReply.idx = s.m_reply_queue.map QReply.idx := by
            rw [hs1]
            simp [List.map_map, Function.comp_def, wakeIdx_idx]
          constructor
          · intro _
            rw [hq, hn, hs1]
            show s.written ++ (s.m_reply_queue.map (wakeIdx i)).map QReply.idx
                = List.range s.nextIdx
            rw [List.map_map]
            simp only [Function.comp_def, wakeIdx_idx]
            exact ho hb
          · intro ht
            rw [hcl1] at ht
            cases ht
        · obtain ⟨hq0, _⟩ := hc hb
          rw [stepEv_closed_empty hb hq0 _]
          exact ⟨ho, hc⟩
      · have hstep : stepEv s (.timerFire i (m + 1)) = s := by simp [stepEv]
        rw [hstep]
        exact ⟨ho, hc⟩
  | readError aborted =>
      cases aborted with
      | true =>
          have hstep : stepEv s (.readError true) = s := by simp [stepEv]
          rw [hstep]
          exact ⟨ho, hc⟩
      | false =>
          have hstep : stepEv s (.readError false)
              = { s with m_reply_queue := [], m_closed := true } := by
            simp [stepEv]
          rw [hstep]
          exact ⟨by simp, fun _ => ⟨rfl, by simpa using InvC_written ⟨ho, hc⟩⟩⟩

lemma connInit_inv : InvC connInit := by
  constructor
  · intro _
    simp [connInit]
  · intro ht
    simp [connInit] at ht

lemma runFrom_inv {s : CState} (h : InvC s) (tr : List Event) :
    InvC (runFrom s tr) := by
  induction tr generalizing s with
  | nil => exact h
  | cons e tr ih => exact ih (stepEv_inv h e)

/-- C1: replies go out on the wire in exactly the creation order of
the entries in the reply queue: after any trace of events the list of
written creation indices is an initial segment 0, 1, ..., k-1 of the
creation order (no skip, no reorder, whatever the per request delays
were), and a flush invoked while the front reply is sleeping writes
nothing and changes nothing. -/
theorem C1_reply_fifo_order :
    (∀ tr : List Event,
        (runTrace tr).written = List.range (runTrace tr).written.length) ∧
      (∀ (s : CState) (r : QReply) (q : List QReply),
        s.m_reply_queue = r :: q → r.sleep ≠ 0 → processReplies s = s) := by
  constructor
  · intro tr
    exact InvC_written (runFrom_inv connInit_inv tr)
  · intro s r q hq hr
    obtain ⟨a, qq, w, n⟩ := s
    simp only at hq
    subst hq
    rcases a with _ | _
    · simp [processReplies, flushLoop, hr]
    · simp [processReplies]

/-- C1 witness: a sleeping front element blocks the flush at a concrete
state, and a concrete trace with delays still yields in-order writes. -/
theorem C1_reply_fifo_order_witness :
    processReplies ⟨false, [⟨0, 5⟩], [], 1⟩ = ⟨false, [⟨0, 5⟩], [], 1⟩ ∧
      (runTrace [.request 5, .request 0, .timerFire 0 0]).written
        = List.range (runTrace [.request 5, .request 0, .timerFire 0 0]).written.length :=
  ⟨C1_reply_fifo_order.2 _ ⟨0, 5⟩ [] rfl (by decide),
    C1_reply_fifo_order.1 [.request 5, .request 0, .timerFire 0 0]⟩

/-- C7: on a read error other than cancellation the connection discards
all queued but unsent replies, closes (m_closed is set), keeps the wire
history unchanged, and afterwards no event whatsoever can write or
queue anything: the state is final. -/
theorem C7_read_error_teardown (s : CState) :
    (stepEv s (.readError false)).m_reply_queue = [] ∧
      (stepEv s (.readError false)).m_closed = true ∧
      (stepEv s (.readError false)).written = s.written ∧
      ∀ tr : List Event, runFrom (stepEv s (.readError false)) tr
        = stepEv s (.readError false) := by
  have hstep : stepEv s (.readError false)
      = { s with m_reply_queue := [], m_closed := true } := by
    simp [stepEv]
  rw [hstep]
  exact ⟨rfl, rfl, rfl, fun tr => runFrom_closed_empty rfl rfl tr⟩

/-- C8: a delay timer firing with a nonzero (cancellation) error code
changes no state and triggers no flush, and process_replies on a closed
connection returns immediately, leaving everything unchanged. -/
theorem C8_timer_noop :
    (∀ (s : CState) (i err : Nat), err ≠ 0 → stepEv s (.timerFire i err) = s) ∧
      (∀ s : CState, s.m_closed = true → processReplies s = s) := by
  constructor
  · intro s i err herr
    simp [stepEv, herr]
  · intro s hcl
    exact processReplies_closed s hcl

/-- C8 witness: the no-op behaviour at a concrete torn down connection
that still has a sleeping reply queued and a pending timer. -/
theorem C8_timer_noop_witness :
    stepEv ⟨true, [⟨0, 250⟩], [], 1⟩ (.timerFire 0 995) = ⟨true, [⟨0, 250⟩], [], 1⟩ ∧
      processReplies ⟨true, [⟨0, 250⟩], [], 1⟩ = ⟨true, [⟨0, 250⟩], [], 1⟩ :=
  ⟨C8_timer_noop.1 _ 0 995 (by decide), C8_timer_noop.2 _ rfl⟩

/-- C10: the Content-Length value queue_reply computes as
strlen(body) + 27 equals the exact byte length of the response bytes
that follow the blank line, the 27 accounting for the fixed
"<html><body>" prefix, "</body></html>" suffix and trailing newline. -/
theorem C10_content_length (reply inst request : Nat) :
    replyContentLength reply inst request = (htmlPayload reply inst request).length ∧
      replyContentLength reply inst request = (bodyText reply inst request).length + 27 := by
  constructor
  · have h1 : "<html><body>".length = 12 := rfl
    have h2 : "</body></html>\n".length = 15 := rfl
    simp only [replyContentLength, htmlPayload, String.length_append, h1, h2]
    omega
  · rfl

/- ------------------------------------------------------------------ -/
/- Byte level lemmas for the handle_read loop                         -/
/- ------------------------------------------------------------------ -/

lemma processBytes_append (s : ConnParse) (xs ys : List Char) :
    processBytes s (xs ++ ys)
      = ((processBytes (processBytes s xs).1 ys).1,
        (processBytes s xs).2 ++ (processBytes (processBytes s xs).1 ys).2) := by
  induction xs generalizing s with
  | nil => simp [processBytes]
  | cons c cs ih => simp [processBytes, ih]

/-- While neither parser fires, processByte only advances the two
parsers and changes nothing else, emitting no reply. -/
lemma inertRun_sound {e2 : ParserState} {h2 : HeaderState} :
    ∀ (cs : List Char) (e : ParserState) (h : HeaderState),
      inertRun e h cs = some (e2, h2) →
      ∀ sl rq cnt, processBytes ⟨e, h, sl, rq, cnt⟩ cs = (⟨e2, h2, sl, rq, cnt⟩, [])
  | [], e, h, hrun, sl, rq, cnt => by
      simp [inertRun] at hrun
      obtain ⟨rfl, rfl⟩ := hrun
      rfl
  | c :: cs, e, h, hrun, sl, rq, cnt => by
      rw [inertRun] at hrun
      by_cases hm : (parserFeed eomChars e c).m_match = true
      · simp [hm] at hrun
      · by_cases hh : (headerFeed h c).m_state = HState.s_matched
        · simp [hm, hh] at hrun
        · simp only [hm, hh, if_neg, ite_false] at hrun
          have hpb : processByte ⟨e, h, sl, rq, cnt⟩ c
              = (⟨parserFeed eomChars e c, headerFeed h c, sl, rq, cnt⟩, none) := by
            simp [processByte, hm, hh]
          rw [processBytes, hpb]
          simp only
          rw [inertRun_sound cs _ _ hrun sl rq cnt]
          rfl

lemma inertRun_append :
    ∀ (xs ys : List Char) (e : ParserState) (h : HeaderState),
      inertRun e h (xs ++ ys)
        = (inertRun e h xs).bind (fun p => inertRun p.1 p.2 ys)
  | [], ys, e, h => by simp [inertRun]
  | c :: xs, ys, e, h => by
      rw [List.cons_append, inertRun, inertRun]
      by_cases hm : (parserFeed eomChars e c).m_match = true
      · simp [hm]
      · by_cases hh : (headerFeed h c).m_state = HState.s_matched
        · simp [hm, hh]
        · simp only [hm, hh, ite_false, if_neg]
          exact inertRun_append xs ys _ _

/-- The header extractor alone also completes no line on an inert
segment. -/
lemma inertRun_headerRun :
    ∀ (cs : List Char) (e : ParserState) (h : HeaderState) {e2 h2},
      inertRun e h cs = some (e2, h2) → headerRunNoMatch h cs = some h2
  | [], e, h, e2, h2, hrun => by
      simp [inertRun] at hrun
      simp [headerRunNoMatch, hrun]
  | c :: cs, e, h, e2, h2, hrun => by
      rw [inertRun] at hrun
      by_cases hm : (parserFeed eomChars e c).m_match = true
      · simp [hm] at hrun
      · by_cases hh : (headerFeed h c).m_state = HState.s_matched
        · simp [hm, hh] at hrun
        · simp only [hm, hh, ite_false, if_neg] at hrun
          rw [headerRunNoMatch]
          simp only [hh, ite_false, if_neg]
          exact inertRun_headerRun cs _ _ hrun

/-- Feeding any byte other than a carriage return to the boundary
matcher at offset 0 resets it. -/
lemma parserFeed_zero {c : Char} (hc : c ≠ '\r') :
    parserFeed eomChars ⟨0, false⟩ c = parserReset := by
  simp [parserFeed, eomChars, hc]

/-- Feeding any byte other than a carriage return to the boundary
matcher at offset 2 resets it. -/
lemma parserFeed_two {c : Char} (hc : c ≠ '\r') :
    parserFeed eomChars ⟨2, false⟩ c = parserReset := by
  simp [parserFeed, eomChars, hc]

/-- Value bytes (anything but CR and LF) accumulate into m_value while
the boundary matcher stays reset. -/
lemma inertRun_value (k : List Char) :
    ∀ (v : List Char), (∀ c ∈ v, c ≠ '\r' ∧ c ≠ '\n') →
      ∀ acc, inertRun ⟨0, false⟩ ⟨k, acc, .s_value, false⟩ v
        = some (⟨0, false⟩, ⟨k, acc ++ v, .s_value, false⟩)
  | [], _, acc => by simp [inertRun]
  | c :: cs, hv, acc => by
      obtain ⟨hr, hn⟩ := hv c (by simp)
      have he : parserFeed eomChars ⟨0, false⟩ c = parserReset := parserFeed_zero hr
      have hh : headerFeed ⟨k, acc, .s_value, false⟩ c
          = ⟨k, acc ++ [c], .s_value, false⟩ := by
        simp [headerFeed, headerSwitch, hr, hn]
      have hrec := inertRun_value k cs (fun c hc => hv c (by simp [hc])) (acc ++ [c])
      rw [inertRun, he, hh]
      simp [parserReset, hrec]

/-- Key bytes (anything but colon, CR and LF) accumulate into m_key
while the boundary matcher stays reset. -/
lemma inertRun_key :
    ∀ (ks : List Char), (∀ c ∈ ks, c ≠ ':' ∧ c ≠ '\r' ∧ c ≠ '\n') →
      ∀ a, inertRun ⟨0, false⟩ ⟨a, [], .s_key, false⟩ ks
        = some (⟨0, false⟩, ⟨a ++ ks, [], .s_key, false⟩)
  | [], _, a => by simp [inertRun]
  | c :: cs, hk, a => by
      obtain ⟨hcol, hr, hn⟩ := hk c (by simp)
      have he : parserFeed eomChars ⟨0, false⟩ c = parserReset := parserFeed_zero hr
      have hh : headerFeed ⟨a, [], .s_key, false⟩ c
          = ⟨a ++ [c], [], .s_key, false⟩ := by
        simp [headerFeed, headerSwitch, hcol, hn]
      have hrec := inertRun_key cs (fun c hc => hk c (by simp [hc])) (a ++ [c])
      rw [inertRun, he, hh]
      simp [parserReset, hrec]

/-- After the colon of a malformed line, with the error flag set, bytes
other than CR and LF keep the extractor in s_colon or s_value with the
error flag still set, so the line can never complete. -/
lemma inertRun_junk :
    ∀ (rs : List Char), (∀ c ∈ rs, c ≠ '\r' ∧ c ≠ '\n') →
      ∀ (a val : List Char) (st : HState), st = .s_colon ∨ st = .s_value →
        ∃ (val2 : List Char) (st2 : HState), (st2 = .s_colon ∨ st2 = .s_value) ∧
          inertRun ⟨0, false⟩ ⟨a, val, st, true⟩ rs
            = some (⟨0, false⟩, ⟨a, val2, st2, true⟩)
  | [], _, a, val, st, hst => ⟨val, st, hst, by simp [inertRun]⟩
  | c :: cs, hrs, a, val, st, hst => by
      obtain ⟨hr, hn⟩ := hrs c (by simp)
      have he : parserFeed eomChars ⟨0, false⟩ c = parserReset := parserFeed_zero hr
      rcases hst with rfl | rfl
      · by_cases hsp : c = ' '
        · have hh : headerFeed ⟨a, val, .s_colon, true⟩ c = ⟨a, val, .s_value, true⟩ := by
            simp [headerFeed, headerSwitch, hsp]
          obtain ⟨val2, st2, hst2, hrec⟩ :=
            inertRun_junk cs (fun c hc => hrs c (by simp [hc])) a val .s_value (Or.inr rfl)
          refine ⟨val2, st2, hst2, ?_⟩
          rw [inertRun, he, hh]
          simp [parserReset, hrec]
        · have hh : headerFeed ⟨a, val, .s_colon, true⟩ c = ⟨a, val, .s_colon, true⟩ := by
            simp [headerFeed, headerSwitch, hsp, hn]
          obtain ⟨val2, st2, hst2, hrec⟩ :=
            inertRun_junk cs (fun c hc => hrs c (by simp [hc])) a val .s_colon (Or.inl rfl)
          refine ⟨val2, st2, hst2, ?_⟩
          rw [inertRun, he, hh]
          simp [parserReset, hrec]
      · have hh : headerFeed ⟨a, val, .s_value, true⟩ c = ⟨a, val ++ [c], .s_value, true⟩ := by
          simp [headerFeed, headerSwitch, hr, hn]
        obtain ⟨val2, st2, hst2, hrec⟩ :=
          inertRun_junk cs (fun c hc => hrs c (by simp [hc])) a (val ++ [c]) .s_value (Or.inr rfl)
        refine ⟨val2, st2, hst2, ?_⟩
        rw [inertRun, he, hh]
        simp [parserReset, hrec]

/-- The closing CRLF of a line that can no longer match (still at the
colon state, or in the value state with the error flag set) resets the
extractor without reporting a pair, and leaves the boundary matcher at
offset 2. -/
lemma inertRun_line_end (a val : List Char) :
    ∀ (st : HState) (b : Bool), st = .s_colon ∨ (st = .s_value ∧ b = true) →
      inertRun ⟨0, false⟩ ⟨a, val, st, b⟩ ['\r', '\n']
        = some (⟨2, false⟩, headerReset) := by
  have p1 : parserFeed eomChars ⟨0, false⟩ '\r' = ⟨1, false⟩ := by decide
  have p2 : parserFeed eomChars ⟨1, false⟩ '\n' = ⟨2, false⟩ := by decide
  rintro st b (rfl | ⟨rfl, rfl⟩)
  · have h1 : headerFeed ⟨a, val, .s_colon, b⟩ '\r' = ⟨a, val, .s_colon, true⟩ := by
      simp [headerFeed, headerSwitch]
    have h2 : headerFeed ⟨a, val, .s_colon, true⟩ '\n' = headerReset := by
      simp [headerFeed, headerSwitch]
    simp [inertRun, p1, p2, h1, h2, parserReset, headerReset]
  · have h1 : headerFeed ⟨a, val, .s_value, true⟩ '\r' = ⟨a, val, .s_carriage_return, true⟩ := by
      simp [headerFeed, headerSwitch]
    have h2 : headerFeed ⟨a, val, .s_carriage_return, true⟩ '\n' = headerReset := by
      simp [headerFeed, headerSwitch]
    simp [inertRun, p1, p2, h1, h2, parserReset, headerReset]

/-- A full malformed line is inert: the header extractor never reports
a completed pair on it and ends reset, and the boundary matcher ends at
offset 2 (just after the CRLF). -/
lemma inertRun_badLine (kb rb : List Char) (hkb : kb ≠ [])
    (hkbc : ∀ c ∈ kb, c ≠ ':' ∧ c ≠ '\r' ∧ c ≠ '\n')
    (hrbc : ∀ c ∈ rb, c ≠ '\r' ∧ c ≠ '\n')
    (hrb1 : ∀ c, rb.head? = some c → c ≠ ' ') :
    inertRun ⟨0, false⟩ headerReset (badLine kb rb) = some (⟨2, false⟩, headerReset) := by
  obtain ⟨k0, krest, rfl⟩ := List.exists_cons_of_ne_nil hkb
  obtain ⟨hk0col, hk0r, hk0n⟩ := hkbc k0 (by simp)
  have he0 : parserFeed eomChars ⟨0, false⟩ k0 = parserReset := parserFeed_zero hk0r
  have hh0 : headerFeed headerReset k0 = ⟨[k0], [], .s_key, false⟩ := by
    simp [headerFeed, headerSwitch, headerReset, hk0n]
  have hkey := inertRun_key krest (fun c hc => hkbc c (by simp [hc])) [k0]
  have hecol : parserFeed eomChars ⟨0, false⟩ ':' = parserReset :=
    parserFeed_zero (by decide)
  have hhcol : headerFeed ⟨[k0] ++ krest, [], .s_key, false⟩ ':'
      = ⟨[k0] ++ krest, [], .s_colon, false⟩ := by
    simp [headerFeed, headerSwitch]
  have hsplit : badLine (k0 :: krest) rb
      = k0 :: (krest ++ (':' :: (rb ++ ['\r', '\n']))) := by
    simp [badLine]
  rw [hsplit, inertRun, he0, hh0]
  simp only [parserReset]
  rw [if_neg (by simp), if_neg (by simp)]
  rw [inertRun_append, hkey]
  simp only [Option.some_bind]
  rw [inertRun, hecol, hhcol]
  simp only [parserReset]
  rw [if_neg (by simp), if_neg (by simp)]
  rcases rb with _ | ⟨r0, rrest⟩
  · simpa using inertRun_line_end ([k0] ++ krest) [] .s_colon false (Or.inl rfl)
  · obtain ⟨hr0r, hr0n⟩ := hrbc r0 (by simp)
    have hr0sp : r0 ≠ ' ' := hrb1 r0 (by simp)
    have her0 : parserFeed eomChars ⟨0, false⟩ r0 = parserReset := parserFeed_zero hr0r
    have hhr0 : headerFeed ⟨[k0] ++ krest, [], .s_colon, false⟩ r0
        = ⟨[k0] ++ krest, [], .s_colon, true⟩ := by
      simp [headerFeed, headerSwitch, hr0sp, hr0n]
    have hstep : (r0 :: rrest) ++ ['\r', '\n'] = r0 :: (rrest ++ ['\r', '\n']) := by simp
    rw [hstep, inertRun, her0, hhr0]
    simp only [parserReset]
    rw [if_neg (by simp), if_neg (by simp)]
    obtain ⟨val2, st2, hst2, hjunk⟩ :=
      inertRun_junk rrest (fun c hc => hrbc c (by simp [hc])) ([k0] ++ krest) [] .s_colon (Or.inl rfl)
    rw [inertRun_append, hjunk]
    simp only [Option.some_bind]
    rcases hst2 with rfl | rfl
    · exact inertRun_line_end ([k0] ++ krest) val2 .s_colon true (Or.inl rfl)
    · exact inertRun_line_end ([k0] ++ krest) val2 .s_value true (Or.inr ⟨rfl, rfl⟩)

/-- The concrete bytes "X-Request: " are inert from a fresh parser
pair and leave the extractor expecting the value. -/
lemma inertRun_xreq_prefix0 :
    inertRun ⟨0, false⟩ headerReset (xRequestKey ++ [':', ' '])
      = some (⟨0, false⟩, ⟨xRequestKey, [], .s_value, false⟩) := by decide

/-- Same as inertRun_xreq_prefix0, starting with the boundary matcher
at offset 2 (the state it has right after a CRLF). -/
lemma inertRun_xreq_prefix2 :
    inertRun ⟨2, false⟩ headerReset (xRequestKey ++ [':', ' '])
      = some (⟨0, false⟩, ⟨xRequestKey, [], .s_value, false⟩) := by decide

/-- The concrete bytes "X-Sleep: " are inert from a fresh parser pair
and leave the extractor expecting the value. -/
lemma inertRun_xsleep_prefix0 :
    inertRun ⟨0, false⟩ headerReset (xSleepKey ++ [':', ' '])
      = some (⟨0, false⟩, ⟨xSleepKey, [], .s_value, false⟩) := by decide

/-- Same as inertRun_xsleep_prefix0, starting with the boundary matcher
at offset 2. -/
lemma inertRun_xsleep_prefix2 :
    inertRun ⟨2, false⟩ headerReset (xSleepKey ++ [':', ' '])
      = some (⟨0, false⟩, ⟨xSleepKey, [], .s_value, false⟩) := by decide

/-- The closing CRLF CRLF of a request whose last header line is the
X-Request line: the first LF completes the line and handle_read stores
strtoul of the value in m_request; the second CRLF fires the boundary
matcher, so queue_reply emits a reply echoing that value, with the
sequence number m_reply + 1 and the current m_sleep as delay, and all
per request state is reset. -/
lemma processBytes_xreq_tail (v : List Char) (sl rq cnt : Nat) :
    processBytes ⟨⟨0, false⟩, ⟨xRequestKey, v, .s_value, false⟩, sl, rq, cnt⟩
        ['\r', '\n', '\r', '\n']
      = (⟨parserReset, headerReset, 0, 0, cnt + 1⟩,
        [⟨cnt + 1, strtoul10 v, sl⟩]) := by
  have p1 : parserFeed eomChars ⟨0, false⟩ '\r' = ⟨1, false⟩ := by decide
  have p2 : parserFeed eomChars ⟨1, false⟩ '\n' = ⟨2, false⟩ := by decide
  have p3 : parserFeed eomChars ⟨2, false⟩ '\r' = ⟨3, false⟩ := by decide
  have p4 : parserFeed eomChars ⟨3, false⟩ '\n' = ⟨4, true⟩ := by decide
  have hkk : ¬ (xRequestKey = xSleepKey) := by decide
  have h1 : headerFeed ⟨xRequestKey, v, .s_value, false⟩ '\r'
      = ⟨xRequestKey, v, .s_carriage_return, false⟩ := by
    simp [headerFeed, headerSwitch]
  have h2 : headerFeed ⟨xRequestKey, v, .s_carriage_return, false⟩ '\n'
      = ⟨xRequestKey, v, .s_matched, false⟩ := by
    simp [headerFeed, headerSwitch]
  have h3 : headerFeed ⟨xRequestKey, v, .s_matched, false⟩ '\r'
      = ⟨['\r'], [], .s_key, false⟩ := by
    simp [headerFeed, headerSwitch, headerReset]
  have s1 : processByte ⟨⟨0, false⟩, ⟨xRequestKey, v, .s_value, false⟩, sl, rq, cnt⟩ '\r'
      = (⟨⟨1, false⟩, ⟨xRequestKey, v, .s_carriage_return, false⟩, sl, rq, cnt⟩, none) := by
    simp [processByte, p1, h1]
  have s2 : processByte ⟨⟨1, false⟩, ⟨xRequestKey, v, .s_carriage_return, false⟩, sl, rq, cnt⟩ '\n'
      = (⟨⟨2, false⟩, ⟨xRequestKey, v, .s_matched, false⟩, sl, strtoul10 v, cnt⟩, none) := by
    simp [processByte, p2, h2, hkk]
  have s3 : processByte ⟨⟨2, false⟩, ⟨xRequestKey, v, .s_matched, false⟩, sl, strtoul10 v, cnt⟩ '\r'
      = (⟨⟨3, false⟩, ⟨['\r'], [], .s_key, false⟩, sl, strtoul10 v, cnt⟩, none) := by
    simp [processByte, p3, h3]
  have s4 : processByte ⟨⟨3, false⟩, ⟨['\r'], [], .s_key, false⟩, sl, strtoul10 v, cnt⟩ '\n'
      = (⟨parserReset, headerReset, 0, 0, cnt + 1⟩, some ⟨cnt + 1, strtoul10 v, sl⟩) := by
    simp [processByte, p4]
  simp [processBytes, s1, s2, s3, s4]

/-- Analogue of processBytes_xreq_tail for the X-Sleep line: the stored
m_sleep becomes strtoul of the value, and the emitted reply carries it
as its delay while echoing the current m_request. -/
lemma processBytes_xsleep_tail (v : List Char) (sl rq cnt : Nat) :
    processBytes ⟨⟨0, false⟩, ⟨xSleepKey, v, .s_value, false⟩, sl, rq, cnt⟩
        ['\r', '\n', '\r', '\n']
      = (⟨parserReset, headerReset, 0, 0, cnt + 1⟩,
        [⟨cnt + 1, rq, strtoul10 v⟩]) := by
  have p1 : parserFeed eomChars ⟨0, false⟩ '\r' = ⟨1, false⟩ := by decide
  have p2 : parserFeed eomChars ⟨1, false⟩ '\n' = ⟨2, false⟩ := by decide
  have p3 : parserFeed eomChars ⟨2, false⟩ '\r' = ⟨3, false⟩ := by decide
  have p4 : parserFeed eomChars ⟨3, false⟩ '\n' = ⟨4, true⟩ := by decide
  have h1 : headerFeed ⟨xSleepKey, v, .s_value, false⟩ '\r'
      = ⟨xSleepKey, v, .s_carriage_return, false⟩ := by
    simp [headerFeed, headerSwitch]
  have h2 : headerFeed ⟨xSleepKey, v, .s_carriage_return, false⟩ '\n'
      = ⟨xSleepKey, v, .s_matched, false⟩ := by
    simp [headerFeed, headerSwitch]
  have h3 : headerFeed ⟨xSleepKey, v, .s_matched, false⟩ '\r'
      = ⟨['\r'], [], .s_key, false⟩ := by
    simp [headerFeed, headerSwitch, headerReset]
  have s1 : processByte ⟨⟨0, false⟩, ⟨xSleepKey, v, .s_value, false⟩, sl, rq, cnt⟩ '\r'
      = (⟨⟨1, false⟩, ⟨xSleepKey, v, .s_carriage_return, false⟩, sl, rq, cnt⟩, none) := by
    simp [processByte, p1, h1]
  have s2 : processByte ⟨⟨1, false⟩, ⟨xSleepKey, v, .s_carriage_return, false⟩, sl, rq, cnt⟩ '\n'
      = (⟨⟨2, false⟩, ⟨xSleepKey, v, .s_matched, false⟩, strtoul10 v, rq, cnt⟩, none) := by
    simp [processByte, p2, h2]
  have s3 : processByte ⟨⟨2, false⟩, ⟨xSleepKey, v, .s_matched, false⟩, strtoul10 v, rq, cnt⟩ '\r'
      = (⟨⟨3, false⟩, ⟨['\r'], [], .s_key, false⟩, strtoul10 v, rq, cnt⟩, none) := by
    simp [processByte, p3, h3]
  have s4 : processByte ⟨⟨3, false⟩, ⟨['\r'], [], .s_key, false⟩, strtoul10 v, rq, cnt⟩ '\n'
      = (⟨parserReset, headerReset, 0, 0, cnt + 1⟩, some ⟨cnt + 1, rq, strtoul10 v⟩) := by
    simp [processByte, p4]
  simp [processBytes, s1, s2, s3, s4]

/-- A full minimal X-Request request processed from a line start
(boundary matcher at offset 0 or 2, extractor reset): exactly one
reply is synthesized; it echoes strtoul of the value, carries the next
sequence number and the entering m_sleep as its delay, and the per
request state is reset afterwards. -/
lemma processBytes_mkXRequest (v : List Char) (hv : ∀ c ∈ v, c ≠ '\r' ∧ c ≠ '\n')
    (e : ParserState) (he : e = ⟨0, false⟩ ∨ e = ⟨2, false⟩) (sl rq cnt : Nat) :
    processBytes ⟨e, headerReset, sl, rq, cnt⟩ (mkXRequest v)
      = (⟨parserReset, headerReset, 0, 0, cnt + 1⟩, [⟨cnt + 1, strtoul10 v, sl⟩]) := by
  have hpre : inertRun e headerReset (xRequestKey ++ [':', ' '])
      = some (⟨0, false⟩, ⟨xRequestKey, [], .s_value, false⟩) := by
    rcases he with rfl | rfl
    · exact inertRun_xreq_prefix0
    · exact inertRun_xreq_prefix2
  have hval := inertRun_value xRequestKey v hv []
  have hin : inertRun e headerReset ((xRequestKey ++ [':', ' ']) ++ v)
      = some (⟨0, false⟩, ⟨xRequestKey, v, .s_value, false⟩) := by
    rw [inertRun_append, hpre]
    simpa using hval
  have hrun := inertRun_sound ((xRequestKey ++ [':', ' ']) ++ v) e headerReset hin sl rq cnt
  have hsplit : mkXRequest v
      = ((xRequestKey ++ [':', ' ']) ++ v) ++ ['\r', '\n', '\r', '\n'] := by
    simp [mkXRequest, mkHeaderLine]
  rw [hsplit, processBytes_append, hrun]
  simp [processBytes_xreq_tail]

/-- Analogue of processBytes_mkXRequest for a minimal X-Sleep request:
the single reply carries strtoul of the value as its delay and echoes
the entering m_request. -/
lemma processBytes_mkXSleep (v : List Char) (hv : ∀ c ∈ v, c ≠ '\r' ∧ c ≠ '\n')
    (e : ParserState) (he : e = ⟨0, false⟩ ∨ e = ⟨2, false⟩) (sl rq cnt : Nat) :
    processBytes ⟨e, headerReset, sl, rq, cnt⟩ (mkXSleep v)
      = (⟨parserReset, headerReset, 0, 0, cnt + 1⟩, [⟨cnt + 1, rq, strtoul10 v⟩]) := by
  have hpre : inertRun e headerReset (xSleepKey ++ [':', ' '])
      = some (⟨0, false⟩, ⟨xSleepKey, [], .s_value, false⟩) := by
    rcases he with rfl | rfl
    · exact inertRun_xsleep_prefix0
    · exact inertRun_xsleep_prefix2
  have hval := inertRun_value xSleepKey v hv []
  have hin : inertRun e headerReset ((xSleepKey ++ [':', ' ']) ++ v)
      = some (⟨0, false⟩, ⟨xSleepKey, v, .s_value, false⟩) := by
    rw [inertRun_append, hpre]
    simpa using hval
  have hrun := inertRun_sound ((xSleepKey ++ [':', ' ']) ++ v) e headerReset hin sl rq cnt
  have hsplit : mkXSleep v
      = ((xSleepKey ++ [':', ' ']) ++ v) ++ ['\r', '\n', '\r', '\n'] := by
    simp [mkXSleep, mkHeaderLine]
  rw [hsplit, processBytes_append, hrun]
  simp [processBytes_xsleep_tail]

/-- Pipelined minimal requests: each request produces exactly one reply
in order, echoing the strtoul value of its own X-Request header, with
consecutive sequence numbers. -/
lemma processBytes_concatRequests :
    ∀ (vs : List (List Char)), (∀ v ∈ vs, ∀ c ∈ v, c ≠ '\r' ∧ c ≠ '\n') →
      ∀ cnt, processBytes ⟨parserReset, headerReset, 0, 0, cnt⟩ (concatRequests vs)
        = (⟨parserReset, headerReset, 0, 0, cnt + vs.length⟩, expectedReplies cnt vs)
  | [], _, cnt => by simp [concatRequests, processBytes, expectedReplies]
  | v :: vs, hvs, cnt => by
      rw [concatRequests, processBytes_append]
      rw [processBytes_mkXRequest v (hvs v (by simp)) parserReset (Or.inl rfl) 0 0 cnt]
      have h2 := processBytes_concatRequests vs
        (fun v hv c hc => hvs v (by simp [hv]) c hc) (cnt + 1)
      simp only
      rw [h2]
      have harith : cnt + 1 + vs.length = cnt + (vs.length + 1) := by omega
      simp [expectedReplies, harith]

lemma isDigit_char_facts {c : Char} (h : c.isDigit = true) :
    c ≠ '\r' ∧ c ≠ '\n' ∧ c ≠ '-' ∧ c ≠ '+' ∧ isSpaceChar c = false := by
  refine ⟨?_, ?_, ?_, ?_, ?_⟩
  · rintro rfl
    exact absurd h (by decide)
  · rintro rfl
    exact absurd h (by decide)
  · rintro rfl
    exact absurd h (by decide)
  · rintro rfl
    exact absurd h (by decide)
  · rcases hs : isSpaceChar c with _ | _
    · rfl
    · exfalso
      simp [isSpaceChar] at hs
      rcases hs with ((((rfl | rfl) | rfl) | rfl) | rfl) | rfl <;> exact absurd h (by decide)

/-- On a nonempty all-digit value within range, strtoul is the digit
value of the whole string. -/
lemma strtoul10_digits {v : List Char} (h0 : v ≠ [])
    (hd : ∀ c ∈ v, c.isDigit = true) (hb : digitsVal v 0 ≤ ulongMax) :
    strtoul10 v = digitsVal v 0 := by
  obtain ⟨c0, rest, rfl⟩ := List.exists_cons_of_ne_nil h0
  obtain ⟨_, _, hm, hp, hsp⟩ := isDigit_char_facts (hd c0 (by simp))
  have hnb : ¬ digitsVal (c0 :: rest) 0 > ulongMax := by omega
  unfold strtoul10
  rw [List.dropWhile_cons, hsp]
  simp [hm, hp, hnb]

lemma expectedReplies_request :
    ∀ (cnt : Nat) (vs : List (List Char)),
      (expectedReplies cnt vs).map ReplyRec.request = vs.map strtoul10
  | _, [] => rfl
  | cnt, v :: vs => by
      simp [expectedReplies, expectedReplies_request (cnt + 1) vs]

/-- C3: for every completed request on a connection, the X-Request
value placed in the synthesized reply equals the integer value of the
X-Request header line parsed within that same request: feeding any
pipelined sequence of minimal requests whose X-Request values are plain
in-range numerals yields one reply per request, echoing, in order, the
numeric value of the matching request. -/
theorem C3_xrequest_echo (vs : List (List Char))
    (hd : ∀ v ∈ vs, v ≠ [] ∧ ∀ c ∈ v, c.isDigit = true)
    (hb : ∀ v ∈ vs, digitsVal v 0 ≤ ulongMax) :
    ((processBytes connParseInit (concatRequests vs)).2).map ReplyRec.request
      = vs.map (fun v => digitsVal v 0) := by
  have hvs : ∀ v ∈ vs, ∀ c ∈ v, c ≠ '\r' ∧ c ≠ '\n' := by
    intro v hv c hc
    obtain ⟨h1, h2, _⟩ := isDigit_char_facts ((hd v hv).2 c hc)
    exact ⟨h1, h2⟩
  rw [show connParseInit = ⟨parserReset, headerReset, 0, 0, 0⟩ from rfl,
    processBytes_concatRequests vs hvs 0]
  rw [expectedReplies_request]
  apply List.map_congr_left
  intro v hv
  exact strtoul10_digits (hd v hv).1 (hd v hv).2 (hb v hv)

/-- C3 witness: two pipelined requests with X-Request values 1 and 23
produce replies echoing 1 and 23 in order. -/
theorem C3_xrequest_echo_witness :
    ((processBytes connParseInit (concatRequests [['1'], ['2', '3']])).2).map ReplyRec.request
      = [['1'], ['2', '3']].map (fun v => digitsVal v 0) :=
  C3_xrequest_echo [['1'], ['2', '3']] (by decide) (by decide)

lemma processByte_seq (s : ConnParse) (c : Char) :
    ((processByte s c).2 = none ∧ (processByte s c).1.m_reply = s.m_reply) ∨
      (∃ r, (processByte s c).2 = some r ∧ r.seq = s.m_reply + 1 ∧
        (processByte s c).1.m_reply = s.m_reply + 1) := by
  simp only [processByte]
  split
  · right
    exact ⟨_, rfl, rfl, rfl⟩
  · split
    · split
      · left
        exact ⟨rfl, rfl⟩
      · split
        · left
          exact ⟨rfl, rfl⟩
        · left
          exact ⟨rfl, rfl⟩
    · left
      exact ⟨rfl, rfl⟩

/-- Sequence numbers of the replies synthesized from any byte stream
are consecutive, starting right after the entering reply counter. -/
lemma processBytes_seqs :
    ∀ (cs : List Char) (s : ConnParse),
      ((processBytes s cs).2).map ReplyRec.seq
          = List.range' (s.m_reply + 1) ((processBytes s cs).2).length ∧
        (processBytes s cs).1.m_reply = s.m_reply + ((processBytes s cs).2).length
  | [], s => by simp [processBytes]
  | c :: cs, s => by
      have hrec := processBytes_seqs cs (processByte s c).1
      rcases processByte_seq s c with ⟨hn, hr⟩ | ⟨r, hsome, hseq, hrep⟩
      · simp only [processBytes, hn, Option.toList_none, List.nil_append]
        rw [hr] at hrec
        exact hrec
      · obtain ⟨h1, h2⟩ := hrec
        rw [hrep] at h1 h2
        simp only [processBytes, hsome, Option.toList_some, List.singleton_append]
        constructor
        · simp only [List.map_cons, List.length_cons, h1, hseq, List.range'_succ]
        · simp only [List.length_cons, h2]
          omega

/-- C4: the k-th reply synthesized on a connection carries X-Reply = k:
for every byte stream fed to a fresh connection, the sequence numbers
of the synthesized replies are exactly 1, 2, ..., n in order. -/
theorem C4_xreply_sequence (cs : List Char) :
    ((processBytes connParseInit cs).2).map ReplyRec.seq
      = List.range' 1 ((processBytes connParseInit cs).2).length := by
  simpa using (processBytes_seqs cs connParseInit).1

/-- C5: a header line whose colon is not followed by a space never
yields a completed (key, value) pair from the header extractor, which
is reset by the terminating newline; and a request that contains such a
malformed line before its X-Request line still produces exactly the
correct reply (the connection keeps parsing; nothing terminates it). -/
theorem C5_malformed_header_recovery (kb rb v : List Char) (hkb : kb ≠ [])
    (hkbc : ∀ c ∈ kb, c ≠ ':' ∧ c ≠ '\r' ∧ c ≠ '\n')
    (hrbc : ∀ c ∈ rb, c ≠ '\r' ∧ c ≠ '\n')
    (hrb1 : rb.head? ≠ some ' ')
    (hv : ∀ c ∈ v, c ≠ '\r' ∧ c ≠ '\n') :
    headerRunNoMatch headerReset (badLine kb rb) = some headerReset ∧
      (processBytes connParseInit (badLine kb rb ++ mkXRequest v)).2
        = [⟨1, strtoul10 v, 0⟩] := by
  have hbad := inertRun_badLine kb rb hkb hkbc hrbc
    (fun c hc hsp => hrb1 (by rw [hc, hsp]))
  constructor
  · exact inertRun_headerRun (badLine kb rb) _ _ hbad
  · rw [show connParseInit = ⟨⟨0, false⟩, headerReset, 0, 0, 0⟩ from rfl,
      processBytes_append,
      inertRun_sound (badLine kb rb) _ _ hbad 0 0 0]
    simp only
    rw [processBytes_mkXRequest v hv ⟨2, false⟩ (Or.inr rfl) 0 0 0]
    simp

/-- C5 witness: the scenario line "Bad:No" inside a request carrying
X-Request: 7 is silently discarded and the reply still echoes 7. -/
theorem C5_malformed_header_recovery_witness :
    headerRunNoMatch headerReset (badLine ['B', 'a', 'd'] ['N', 'o']) = some headerReset ∧
      (processBytes connParseInit
          (badLine ['B', 'a', 'd'] ['N', 'o'] ++ mkXRequest ['7'])).2
        = [⟨1, strtoul10 ['7'], 0⟩] :=
  C5_malformed_header_recovery ['B', 'a', 'd'] ['N', 'o'] ['7']
    (by decide) (by decide) (by decide) (by decide) (by decide)

/-- C6 counterexample: the value string 12abc is not a numeral for a
non-negative integer (it fails integer parsing as a whole), yet the
value the server stores and echoes is strtoul of it, which is 12, not
0, because strtoul converts the longest digit prefix. -/
theorem C6_strtoul_cex :
    isNatNumeral ['1', '2', 'a', 'b', 'c'] = false ∧
      ((processBytes connParseInit (mkXRequest ['1', '2', 'a', 'b', 'c'])).2).map
          ReplyRec.request = [12] ∧
      (12 : Nat) ≠ 0 := by
  refine ⟨by decide, ?_, by decide⟩
  have hv : ∀ c ∈ ['1', '2', 'a', 'b', 'c'], c ≠ '\r' ∧ c ≠ '\n' := by decide
  rw [show connParseInit = ⟨⟨0, false⟩, headerReset, 0, 0, 0⟩ from rfl,
    processBytes_mkXRequest ['1', '2', 'a', 'b', 'c'] hv ⟨0, false⟩ (Or.inl rfl) 0 0 0]
  simp
  decide

lemma digitsVal_nonDigit {l : List Char} (h : ∀ c ∈ l, c.isDigit = false) (acc : Nat) :
    digitsVal l acc = acc := by
  cases l with
  | nil => rfl
  | cons c rest => simp [digitsVal, h c (by simp)]

/-- When the value has no digit characters at all, strtoul yields 0. -/
lemma strtoul10_noDigits {v : List Char} (h : ∀ c ∈ v, c.isDigit = false) :
    strtoul10 v = 0 := by
  have hsub : ∀ x ∈ v.dropWhile isSpaceChar, x.isDigit = false := fun x hx =>
    h x (List.Sublist.subset (List.dropWhile_sublist isSpaceChar) hx)
  rcases ht : v.dropWhile isSpaceChar with _ | ⟨c, rest⟩
  · unfold strtoul10
    rw [ht]
  · have hd0 : c.isDigit = false := hsub c (by rw [ht]; simp)
    have hrest : ∀ x ∈ rest, x.isDigit = false := fun x hx => hsub x (by rw [ht]; simp [hx])
    have hz : digitsVal rest 0 = 0 := digitsVal_nonDigit hrest 0
    have hz2 : digitsVal (c :: rest) 0 = 0 := by simp [digitsVal, hd0]
    unfold strtoul10
    rw [ht]
    by_cases hm : c = '-'
    · simp [hm, hz, ulongMax, Nat.mod_self]
    · by_cases hp : c = '+'
      · simp [hm, hp, hz, ulongMax]
      · simp [hm, hp, hz2, ulongMax]

/-- C6 amended: the stored value is strtoul of the value string, so a
value with no digit characters at all stores 0 (for X-Request the
echoed id, for X-Sleep the delay), but a failing value that begins with
digits stores the value of that digit prefix rather than 0. -/
theorem C6_nonnumeric_default_amended (v : List Char)
    (hv : ∀ c ∈ v, c ≠ '\r' ∧ c ≠ '\n')
    (hnd : ∀ c ∈ v, c.isDigit = false) :
    ((processBytes connParseInit (mkXRequest v)).2).map ReplyRec.request = [0] ∧
      ((processBytes connParseInit (mkXSleep v)).2).map ReplyRec.sleep = [0] := by
  have h0 := strtoul10_noDigits hnd
  constructor
  · rw [show connParseInit = ⟨⟨0, false⟩, headerReset, 0, 0, 0⟩ from rfl,
      processBytes_mkXRequest v hv ⟨0, false⟩ (Or.inl rfl) 0 0 0]
    simp [h0]
  · rw [show connParseInit = ⟨⟨0, false⟩, headerReset, 0, 0, 0⟩ from rfl,
      processBytes_mkXSleep v hv ⟨0, false⟩ (Or.inl rfl) 0 0 0]
    simp [h0]

/-- C6 witness: the non numeric value abc stores and echoes 0 for both
headers. -/
theorem C6_nonnumeric_default_amended_witness :
    ((processBytes connParseInit (mkXRequest ['a', 'b', 'c'])).2).map ReplyRec.request = [0] ∧
      ((processBytes connParseInit (mkXSleep ['a', 'b', 'c'])).2).map ReplyRec.sleep = [0] :=
  C6_nonnumeric_default_amended ['a', 'b', 'c'] (by decide) (by decide)

/-- C4 witness: two concrete pipelined requests yield sequence numbers
1 and 2 in order. -/
theorem C4_xreply_sequence_witness :
    ((processBytes connParseInit (concatRequests [['5'], ['6']])).2).map ReplyRec.seq
      = List.range' 1 ((processBytes connParseInit (concatRequests [['5'], ['6']])).2).length :=
  C4_xreply_sequence (concatRequests [['5'], ['6']])

/-- C7 witness: the teardown behaviour at a concrete connection with
one pending reply. -/
theorem C7_read_error_teardown_witness :
    (stepEv ⟨false, [⟨0, 9⟩], [], 1⟩ (.readError false)).m_reply_queue = [] ∧
      (stepEv ⟨false, [⟨0, 9⟩], [], 1⟩ (.readError false)).m_closed = true ∧
      (stepEv ⟨false, [⟨0, 9⟩], [], 1⟩ (.readError false)).written
        = (⟨false, [⟨0, 9⟩], [], 1⟩ : CState).written ∧
      ∀ tr : List Event, runFrom (stepEv ⟨false, [⟨0, 9⟩], [], 1⟩ (.readError false)) tr
        = stepEv ⟨false, [⟨0, 9⟩], [], 1⟩ (.readError false) :=
  C7_read_error_teardown ⟨false, [⟨0, 9⟩], [], 1⟩

/-- C9 witness: the amended theorem applied at a concrete command
line. -/
theorem C9_fixed_port_witness : listenPort ["-p", "80"] = 9001 :=
  C9_fixed_port ["-p", "80"]

/-- C10 witness: the identity at concrete reply numbers. -/
theorem C10_content_length_witness :
    replyContentLength 3 1 7 = (htmlPayload 3 1 7).length ∧
      replyContentLength 3 1 7 = (bodyText 3 1 7).length + 27 :=
  C10_content_length 3 1 7
